import Mathlib

set_option linter.all false

/-! Shallow embedding of the skintel content-collection engine
(backend/src/services/redditService.js, dataCollectorService.js and the
historical service variants in the repository), together with theorems
checking the natural-language specification of the engine against it.

Conventions of the embedding:
* clocks are Nat epoch milliseconds; every place the source reads
  Date.now() the model takes an explicit clock parameter;
* an upstream HTTP call is represented by a FetchOutcome value supplied
  by the environment: ok with the decoded payload, or err for a
  transport failure or a json parse failure (anything that makes the
  surrounding JS await throw);
* JS Map objects are association lists with Map.set semantics: setting
  an existing key overwrites the value in place and keeps the position,
  setting a new key appends;
* JS truthiness tests on strings are modelled exactly: the empty string
  is falsy, a missing (undefined) field is an Option that is none. -/

/-- Outcome of one upstream HTTP call. -/
inductive FetchOutcome (α : Type) where
  | ok (v : α)
  | err
deriving DecidableEq, Repr

/-- Lookup in an association list, first match wins (JS Map.get). -/
def lookupKV {α β : Type} [DecidableEq α] : List (α × β) → α → Option β
  | [], _ => none
  | (k, v) :: rest, k2 => if k = k2 then some v else lookupKV rest k2

/-- JS Map.set: overwrite the value in place when the key is present,
append a new entry otherwise. -/
def mapSet {α β : Type} [DecidableEq α] : List (α × β) → α → β → List (α × β)
  | [], k, v => [(k, v)]
  | (k1, v1) :: rest, k, v =>
      if k1 = k then (k, v) :: rest else (k1, v1) :: mapSet rest k v

/-- Length of a possibly missing string, as in the JS expression
selftext?.length (undefined yields a failing comparison with 0). -/
def selftextLen : Option String → Nat
  | some s => s.length
  | none => 0

/-- One raw post record as read from a listing response
(post.data in redditService.js). -/
structure RawPost where
  id : String
  title : String
  selftext : Option String
  permalink : String
  author : String
  score : Int
  created_utc : Nat
  num_comments : Int
  removed : Bool
  deleted : Bool
  subreddit : String
deriving DecidableEq, Repr

/-- One raw comment record as read from a comments response
(comment.data in redditService.js). -/
structure RawComment where
  id : String
  body : String
  author : String
  score : Int
  created_utc : Nat
  stickied : Bool
deriving DecidableEq, Repr

/-- A normalized comment (the object literal built in fetchTopComments). -/
structure Comment where
  id : String
  body : String
  author : String
  score : Int
  created_utc : Nat
deriving DecidableEq, Repr

/-- A normalized post (the object literal built in fetchAllSubreddits),
with the top_comments field attached later by the comment phase. -/
structure Post where
  id : String
  title : String
  selftext : Option String
  url : String
  author : String
  score : Int
  created_utc : Nat
  num_comments : Int
  subreddit : String
  top_comments : List Comment
deriving DecidableEq, Repr

/-- The map step of the listing pipeline (redditService.js lines 127-137):
a raw post becomes a normalized post with an empty comment list. -/
def rawToPost (r : RawPost) : Post :=
  { id := r.id
    title := r.title
    selftext := r.selftext
    url := "https://reddit.com" ++ r.permalink
    author := r.author
    score := r.score
    created_utc := r.created_utc
    num_comments := r.num_comments
    subreddit := r.subreddit
    top_comments := [] }

/-- Forget the attached comments of a post (used to state that the
comment phase changes nothing but top_comments). -/
def stripComments (p : Post) : Post :=
  { p with top_comments := [] }

/-- The default quality predicate of the collection run
(redditService.js lines 120-126). -/
def passesQualityFilter (r : RawPost) : Bool :=
  decide (r.score > 10) && decide (r.num_comments > 5) &&
    !r.removed && !r.deleted && decide (selftextLen r.selftext > 0)

/-- The filter of the ad-hoc search variant searchSpecific
(part_000 lines 155-160). Note: it has no num_comments conjunct. -/
def searchFilter (r : RawPost) : Bool :=
  decide (r.score > 5) && !r.removed && !r.deleted &&
    decide (selftextLen r.selftext > 0)

/-- Modelled from the spec wording of claim C8: the predicate the claim
says the search variant uses, namely score > 5 with the same other
conditions as the default predicate, commentCount > 5 included. -/
def searchFilterSpec (r : RawPost) : Bool :=
  decide (r.score > 5) && decide (r.num_comments > 5) &&
    !r.removed && !r.deleted && decide (selftextLen r.selftext > 0)

/-- A concrete raw post accepted by the code filter of searchSpecific
but rejected by the predicate claim C8 states for it. -/
def searchCexPost : RawPost :=
  { id := "p1"
    title := "t"
    selftext := some "body"
    permalink := "/r/x/p1"
    author := "a"
    score := 6
    created_utc := 0
    num_comments := 0
    removed := false
    deleted := false
    subreddit := "x" }

/-- C8 counterexample: the search variant accepts a post with
commentCount 0, so its predicate is not score > 5 with the same other
conditions as the default predicate. -/
theorem search_filter_cex :
    searchFilter searchCexPost = true ∧ searchFilterSpec searchCexPost = false := by
  decide

/-- C8 amended: the search variant uses score > 5 AND NOT removed AND
NOT deleted AND non-empty body, omitting the commentCount conjunct of
the default predicate; every post passing the default predicate passes
the search filter, and the predicate the claim states is exactly the
code filter strengthened by commentCount > 5. -/
theorem search_filter_characterization :
    (∀ r : RawPost, passesQualityFilter r = true → searchFilter r = true) ∧
    (∀ r : RawPost, searchFilterSpec r =
      (searchFilter r && decide (r.num_comments > 5))) := by
  constructor
  · intro r h
    simp only [passesQualityFilter, Bool.and_eq_true, decide_eq_true_eq,
      Bool.not_eq_true'] at h
    obtain ⟨⟨⟨⟨hs, hc⟩, hrm⟩, hd⟩, hl⟩ := h
    simp only [searchFilter, Bool.and_eq_true, decide_eq_true_eq,
      Bool.not_eq_true']
    refine ⟨⟨⟨?_, hrm⟩, hd⟩, hl⟩
    omega
  · intro r
    simp only [searchFilterSpec, searchFilter]
    cases hrm : r.removed <;> cases hd : r.deleted <;>
      cases hs : decide (r.score > 5) <;>
      cases hc : decide (r.num_comments > 5) <;>
      cases hl : decide (selftextLen r.selftext > 0) <;> rfl

/-- C8 witness: the amended characterization applied at concrete posts. -/
theorem search_filter_characterization_witness :
    searchFilter
      { searchCexPost with score := 11, num_comments := 6 } = true ∧
    searchFilterSpec searchCexPost =
      (searchFilter searchCexPost && decide (searchCexPost.num_comments > 5)) :=
  ⟨search_filter_characterization.1
      { searchCexPost with score := 11, num_comments := 6 } (by decide),
    search_filter_characterization.2 searchCexPost⟩

/-! ## TokenManager: getAccessToken (redditService.js lines 45-72) -/

/-- The token state owned by the service object. -/
structure TokenState where
  accessToken : Option String
  tokenExpiration : Option Nat
deriving DecidableEq, Repr

/-- The cached-token test of line 47:
this.accessToken && this.tokenExpiration > Date.now().
A null or empty-string token is falsy; a null expiration compares as 0
and is never greater than the clock. -/
def tokenValid (st : TokenState) (now : Nat) : Bool :=
  (match st.accessToken with
   | some s => decide (s ≠ "")
   | none => false) &&
  (match st.tokenExpiration with
   | some e => decide (now < e)
   | none => false)

/-- Model of getAccessToken. now1 is the clock at the cache check of
line 47, now2 the clock at the expiry computation of line 70. The Nat
component counts auth-endpoint calls made by this invocation. The inner
none branch is unreachable because tokenValid requires a cached value. -/
def getAccessTokenM (st : TokenState) (now1 now2 : Nat)
    (resp : FetchOutcome (String × Nat)) :
    Except Unit (String × TokenState) × Nat :=
  if tokenValid st now1 then
    match st.accessToken with
    | some tok => (Except.ok (tok, st), 0)
    | none => (Except.error (), 0)
  else
    match resp with
    | FetchOutcome.err => (Except.error (), 1)
    | FetchOutcome.ok (tok, ttl) =>
        (Except.ok (tok,
          { accessToken := some tok
            tokenExpiration := some (now2 + ttl * 1000) }), 1)

/-- C7: with a cached nonempty token and now < expiresAt, getAccessToken
returns the cached token unchanged with zero auth calls, whatever the
network would have answered; otherwise it performs exactly one
credential-exchange call, stores expiry now + ttl * 1000 and returns the
fresh token; and with a positive ttl the stored expiry lies strictly
after the store clock, so a returned token is never expired. -/
theorem getToken_cached_or_refresh
    (st : TokenState) (now1 now2 : Nat) (s : String) (e : Nat)
    (tok : String) (ttl : Nat) :
    (st.accessToken = some s → s ≠ "" → st.tokenExpiration = some e →
      now1 < e →
      getAccessTokenM st now1 now2 (FetchOutcome.ok (tok, ttl)) =
        (Except.ok (s, st), 0) ∧
      getAccessTokenM st now1 now2 FetchOutcome.err =
        (Except.ok (s, st), 0)) ∧
    (tokenValid st now1 = false →
      getAccessTokenM st now1 now2 (FetchOutcome.ok (tok, ttl)) =
        (Except.ok (tok,
          { accessToken := some tok
            tokenExpiration := some (now2 + ttl * 1000) }), 1)) ∧
    (0 < ttl → now2 < now2 + ttl * 1000) := by
  refine ⟨?_, ?_, ?_⟩
  · intro hs hne hexp hlt
    have hvalid : tokenValid st now1 = true := by
      simp [tokenValid, hs, hexp, hne, hlt]
    constructor <;> simp [getAccessTokenM, hvalid, hs]
  · intro hinvalid
    simp [getAccessTokenM, hinvalid]
  · intro hpos
    have : 0 < ttl * 1000 := by positivity
    omega

/-- C7 witness: the theorem applied at a concrete cached state and at a
concrete refresh from the empty state. -/
theorem getToken_cached_or_refresh_witness :
    getAccessTokenM ⟨some "tk", some 10⟩ 5 6 (FetchOutcome.ok ("fresh", 60)) =
      (Except.ok ("tk", ⟨some "tk", some 10⟩), 0) ∧
    getAccessTokenM ⟨none, none⟩ 5 6 (FetchOutcome.ok ("fresh", 60)) =
      (Except.ok ("fresh", ⟨some "fresh", some (6 + 60 * 1000)⟩), 1) ∧
    6 < 6 + 60 * 1000 :=
  ⟨(getToken_cached_or_refresh ⟨some "tk", some 10⟩ 5 6 "tk" 10 "fresh" 60).1
      rfl (by decide) rfl (by decide) |>.1,
   (getToken_cached_or_refresh ⟨none, none⟩ 5 6 "tk" 10 "fresh" 60).2.1
      (by decide),
   (getToken_cached_or_refresh ⟨none, none⟩ 5 6 "tk" 10 "fresh" 60).2.2
      (by decide)⟩

/-! ## Concurrent token refresh (claim C9)

JS executes each getAccessToken call synchronously up to its first
await. When n calls are begun in the same event-loop tick against the
shared service object, every one of them evaluates the line 47 check
against the same pre-refresh state before any auth response can be
processed, so each caller independently decides whether to issue an auth
call, and the per-caller decision is the auth-call count of a single
invocation. There is no shared in-flight promise in the source. -/

/-- Total number of auth-endpoint calls issued by n getAccessToken calls
begun in one event-loop tick against state st. -/
def authCallsStartedTogether (n : Nat) (st : TokenState) (now : Nat)
    (resp : FetchOutcome (String × Nat)) : Nat :=
  n * (getAccessTokenM st now now resp).2

/-- C9 counterexample: two getToken calls begun together against an
absent token issue two auth calls, not at most one. -/
theorem concurrent_refresh_cex :
    authCallsStartedTogether 2 ⟨none, none⟩ 0 (FetchOutcome.ok ("t", 3600)) = 2 ∧
    ¬ (authCallsStartedTogether 2 ⟨none, none⟩ 0
        (FetchOutcome.ok ("t", 3600)) ≤ 1) := by
  decide

/-- C9 amended: getAccessToken has no single-flight guard; n calls begun
in one tick while the token is absent or expired each issue their own
auth call, n in total, and with a valid cached token they issue none. -/
theorem concurrent_refresh_count (n : Nat) (st : TokenState) (now : Nat)
    (resp : FetchOutcome (String × Nat)) :
    (tokenValid st now = false → authCallsStartedTogether n st now resp = n) ∧
    (tokenValid st now = true → authCallsStartedTogether n st now resp = 0) := by
  constructor
  · intro h
    cases resp <;> simp [authCallsStartedTogether, getAccessTokenM, h]
  · intro h
    cases hs : st.accessToken <;>
      simp [authCallsStartedTogether, getAccessTokenM, h, hs]

/-- C9 witness: the amended count applied at three concurrent callers
against an absent token and against a valid cached token. -/
theorem concurrent_refresh_count_witness :
    authCallsStartedTogether 3 ⟨none, none⟩ 0 (FetchOutcome.ok ("t", 60)) = 3 ∧
    authCallsStartedTogether 3 ⟨some "tk", some 9⟩ 5
      (FetchOutcome.ok ("t", 60)) = 0 :=
  ⟨(concurrent_refresh_count 3 ⟨none, none⟩ 0 (FetchOutcome.ok ("t", 60))).1
      (by decide),
   (concurrent_refresh_count 3 ⟨some "tk", some 9⟩ 5
      (FetchOutcome.ok ("t", 60))).2 (by decide)⟩

/-! ## CommentFetcher: fetchTopComments (redditService.js lines 228-264)
and the per-post comment phase fetchCommentsForPosts (lines 175-220) -/

/-- An entry of the comment cache: the object literal stored at
line 196, comments plus the insertion clock. -/
structure CommentCacheEntry where
  comments : List Comment
  timestamp : Nat
deriving DecidableEq, Repr

/-- The lazy-expiry test isCacheValid (redditService.js lines 75-77):
timestamp && (Date.now() - timestamp) < CACHE_DURATION. A zero
timestamp is falsy in JS. -/
def isCacheValid (ts now : Nat) : Bool :=
  decide (ts ≠ 0) && decide (now - ts < 30 * 60 * 1000)

/-- The map step of fetchTopComments (lines 252-258). -/
def rawToComment (c : RawComment) : Comment :=
  { id := c.id
    body := c.body
    author := c.author
    score := c.score
    created_utc := c.created_utc }

/-- Model of fetchTopComments. The token argument is the result of the
getAccessToken call of line 229, which sits outside the try block, so an
auth failure propagates; everything after it is inside the try, so an
upstream failure yields an empty list. The Nat component counts
comments-endpoint calls. An ok response with an empty list also covers
the missing data[1].data.children case of line 246, which returns the
same empty list. Note: this function consults no cache. -/
def fetchTopCommentsM (token : Except Unit String) (limit : Nat)
    (resp : FetchOutcome (List RawComment)) :
    Except Unit (List Comment) × Nat :=
  match token with
  | Except.error _ => (Except.error (), 0)
  | Except.ok _ =>
    match resp with
    | FetchOutcome.err => (Except.ok [], 1)
    | FetchOutcome.ok children =>
        (Except.ok
          (((children.filter
              (fun c => !c.stickied && decide (c.body ≠ ""))).map
                rawToComment).take limit), 1)

/-- Environment of one post of the comment phase: the clock at the
cache-validity check of line 188, the clock at the cache insert of
line 198, the token obtained inside fetchTopComments, and the
comments-endpoint response. -/
structure CEnv where
  now : Nat
  now2 : Nat
  token : Except Unit String
  resp : FetchOutcome (List RawComment)
deriving Repr

/-- The comment-cache lookup of lines 185-188: key comments_<id>,
served only when present and valid. -/
def commentCacheLookup (cache : List (String × CommentCacheEntry))
    (postId : String) (now : Nat) : Option (List Comment) :=
  match lookupKV cache ("comments_" ++ postId) with
  | some e => if isCacheValid e.timestamp now then some e.comments else none
  | none => none

/-- Result of processing one post in fetchCommentsForPosts. -/
structure ProcOut where
  post : Post
  cache : List (String × CommentCacheEntry)
  calls : Nat
deriving DecidableEq, Repr

/-- Model of the per-post body of fetchCommentsForPosts
(lines 182-207): on a valid cache hit attach the cached comments with
zero network calls; otherwise call fetchTopComments, cache its result
and attach it; if fetchTopComments throws (auth failure), the catch
block attaches an empty list and caches nothing. -/
def processPost (cache : List (String × CommentCacheEntry)) (p : Post)
    (env : CEnv) : ProcOut :=
  match commentCacheLookup cache p.id env.now with
  | some cs => { post := { p with top_comments := cs }, cache := cache, calls := 0 }
  | none =>
    match fetchTopCommentsM env.token 5 env.resp with
    | (Except.error _, n) =>
        { post := { p with top_comments := [] }, cache := cache, calls := n }
    | (Except.ok cs, n) =>
        { post := { p with top_comments := cs }
          cache := mapSet cache ("comments_" ++ p.id) ⟨cs, env.now2⟩
          calls := n }

/-- Result of the comment phase over a list of posts. -/
structure CommentsOut where
  posts : List Post
  cache : List (String × CommentCacheEntry)
  calls : Nat
  next : Nat
deriving DecidableEq, Repr

/-- Model of fetchCommentsForPosts over a list of posts. The source
processes posts in sub-batches of 10 with Promise.all and a delay in
between; the sub-batch structure only adds delays, so the model
processes posts in list order, drawing the environment of the i-th
processed post from the oracle cf at index i. -/
def fetchCommentsForPostsM (cache : List (String × CommentCacheEntry))
    (cf : Nat → CEnv) (i : Nat) : List Post → CommentsOut
  | [] => { posts := [], cache := cache, calls := 0, next := i }
  | p :: ps =>
    let o := processPost cache p (cf i)
    let rest := fetchCommentsForPostsM o.cache cf (i + 1) ps
    { posts := o.post :: rest.posts
      cache := rest.cache
      calls := o.calls + rest.calls
      next := rest.next }

/-- C5 counterexample: fetchTopComments consults no cache, so two
invocations for the same post id in the same TTL window issue two
upstream comments calls, not one. -/
theorem fetchTopComments_uncached_cex :
    (fetchTopCommentsM (Except.ok "tk") 5 (FetchOutcome.ok [])).2 +
      (fetchTopCommentsM (Except.ok "tk") 5 (FetchOutcome.ok [])).2 = 2 ∧
    ¬ ((fetchTopCommentsM (Except.ok "tk") 5 (FetchOutcome.ok [])).2 +
        (fetchTopCommentsM (Except.ok "tk") 5 (FetchOutcome.ok [])).2 = 1) := by
  decide

/-- C5 amended: the comment cache lives in fetchCommentsForPosts, keyed
comments_<itemId>, not in fetchTopComments. Processing a post through
the comment phase against a cache without its key issues one upstream
call and stores the result at the store clock t; processing the same
post again strictly inside the TTL window (t nonzero, second check
clock less than t + 30 minutes) issues zero further upstream calls and
attaches the cached comments; once the TTL has elapsed the entry is
stale and a second upstream call is issued. -/
theorem comment_cache_single_upstream_call
    (p : Post) (e1 e2 e3 : CEnv) (tk2 tk3 : String) (cs : List RawComment)
    (h1 : commentCacheLookup [] p.id e1.now = none)
    (htok : e1.token = Except.ok tk2)
    (hresp : e1.resp = FetchOutcome.ok cs)
    (hts : e1.now2 ≠ 0) :
    (processPost [] p e1).calls = 1 ∧
    (e2.now - e1.now2 < 30 * 60 * 1000 →
      (processPost (processPost [] p e1).cache p e2).calls = 0 ∧
      (processPost (processPost [] p e1).cache p e2).post.top_comments =
        (processPost [] p e1).post.top_comments) ∧
    (e3.now - e1.now2 ≥ 30 * 60 * 1000 → e3.token = Except.ok tk3 →
      (processPost (processPost [] p e1).cache p e3).calls = 1) := by
  have hfirst : processPost [] p e1 =
      { post := { p with top_comments :=
          ((cs.filter (fun c => !c.stickied && decide (c.body ≠ ""))).map
            rawToComment).take 5 }
        cache := [("comments_" ++ p.id,
          ⟨((cs.filter (fun c => !c.stickied && decide (c.body ≠ ""))).map
            rawToComment).take 5, e1.now2⟩)]
        calls := 1 } := by
    simp [processPost, h1, htok, hresp, fetchTopCommentsM, mapSet]
  refine ⟨by rw [hfirst], ?_, ?_⟩
  · intro hlt
    have hvalid : isCacheValid e1.now2 e2.now = true := by
      simp [isCacheValid, hts, hlt]
    rw [hfirst]
    constructor
    · simp [processPost, commentCacheLookup, lookupKV, hvalid]
    · simp [processPost, commentCacheLookup, lookupKV, hvalid,
        fetchTopCommentsM]
  · intro hge htok3
    have hstale : isCacheValid e1.now2 e3.now = false := by
      simp [isCacheValid]
      omega
    rw [hfirst]
    cases hr : e3.resp <;>
      simp [processPost, commentCacheLookup, lookupKV, hstale, htok3,
        fetchTopCommentsM, hr]

/-- C5 witness: the amended cache behavior at a concrete post, a hit at
second 60 and a stale re-fetch at 31 minutes, with every hypothesis of
the theorem discharged at those concrete inputs. -/
theorem comment_cache_single_upstream_call_witness :
    (processPost [] (rawToPost searchCexPost)
      ⟨1000, 2000, Except.ok "tk", FetchOutcome.ok []⟩).calls = 1 ∧
    (processPost (processPost [] (rawToPost searchCexPost)
        ⟨1000, 2000, Except.ok "tk", FetchOutcome.ok []⟩).cache
      (rawToPost searchCexPost)
      ⟨60000, 61000, Except.ok "tk", FetchOutcome.ok []⟩).calls = 0 ∧
    (processPost (processPost [] (rawToPost searchCexPost)
        ⟨1000, 2000, Except.ok "tk", FetchOutcome.ok []⟩).cache
      (rawToPost searchCexPost)
      ⟨60000, 61000, Except.ok "tk", FetchOutcome.ok []⟩).post.top_comments =
      (processPost [] (rawToPost searchCexPost)
        ⟨1000, 2000, Except.ok "tk", FetchOutcome.ok []⟩).post.top_comments ∧
    (processPost (processPost [] (rawToPost searchCexPost)
        ⟨1000, 2000, Except.ok "tk", FetchOutcome.ok []⟩).cache
      (rawToPost searchCexPost)
      ⟨1862000, 1863000, Except.ok "tk", FetchOutcome.ok []⟩).calls = 1 := by
  have h := comment_cache_single_upstream_call (rawToPost searchCexPost)
    ⟨1000, 2000, Except.ok "tk", FetchOutcome.ok []⟩
    ⟨60000, 61000, Except.ok "tk", FetchOutcome.ok []⟩
    ⟨1862000, 1863000, Except.ok "tk", FetchOutcome.ok []⟩
    "tk" "tk" [] (by decide) rfl rfl (by decide)
  exact ⟨h.1, (h.2.1 (by decide)).1, (h.2.1 (by decide)).2,
    h.2.2 (by decide) rfl⟩

/-! ## BatchFetchOrchestrator: fetchAllSubreddits
(redditService.js lines 82-170)

The source partitions the subreddit list into batches of 25, runs the
per-subreddit closures of one batch under Promise.all, then enriches
the whole batch with comments and sleeps before the next batch. Each
closure runs synchronously up to its first await and touches only the
cursor key and the cache key of its own subreddit, so for the
state-dependent facts proved below the run is modelled as a sequential
iteration over the subreddit list, each step drawing its clock values
and its listing response from an environment trace; the comment phase
is invoked on each step result in order, which performs the same cache
lookups and inserts in the same order as the per-batch invocation of
the source. Delays are not modelled: they influence only the clock
values, which the trace supplies explicitly. -/

/-- An entry of the listing cache: the object literal stored at
lines 140-143, posts plus the insertion clock. -/
structure PostCacheEntry where
  posts : List Post
  timestamp : Nat
deriving DecidableEq, Repr

/-- Environment of one per-subreddit step: the clock at the cache-key
build of line 100, the clock at the cache insert of line 142, and the
listing response. An ok response carries data.data.children; an ok
response with an empty list also covers a response missing those
fields, which the guard of line 113 treats the same way. -/
structure StepEnv where
  now : Nat
  now2 : Nat
  resp : FetchOutcome (List RawPost)
deriving DecidableEq, Repr

/-- Observable facts about one per-subreddit step: the after cursor the
request carried, whether the cache served the step, whether a listing
call went out, and whether an entry was inserted into the listing
cache. -/
structure StepLog where
  afterParam : Option String
  cacheHit : Bool
  networkCalled : Bool
  inserted : Bool
deriving DecidableEq, Repr

/-- The mutable state of the service object used by the run:
lastSeenPosts, postCache and commentCache. The listing-cache key is the
pair behind the template string subreddit_timestamp of line 100 (the
timestamp component is a number, so the pair determines the string and
conversely). -/
structure SvcState where
  lastSeen : List (String × String)
  postCache : List ((String × Nat) × PostCacheEntry)
  commentCache : List (String × CommentCacheEntry)
deriving DecidableEq, Repr

/-- The listing-cache lookup of lines 100-105: key (subreddit, now),
served only when present and valid. -/
def listingCacheLookup (st : SvcState) (sub : String) (now : Nat) :
    Option (List Post) :=
  match lookupKV st.postCache (sub, now) with
  | some e => if isCacheValid e.timestamp now then some e.posts else none
  | none => none

/-- The after parameter of the listing URL of line 108: present exactly
when the stored cursor is truthy, that is present and nonempty. -/
def afterParamOf (cursor : Option String) : Option String :=
  match cursor with
  | some s => if s = "" then none else some s
  | none => none

/-- Result of one per-subreddit step. -/
structure StepOut where
  posts : List Post
  st : SvcState
  log : StepLog
deriving DecidableEq, Repr

/-- Model of the per-subreddit closure of lines 97-149: consult the
listing cache; on a miss read the cursor, build the request, and on a
non-empty response advance the cursor to the id of the first element,
filter with the quality predicate, map to normalized posts and cache
them; an empty or malformed response contributes nothing and caches
nothing; a thrown error is caught and contributes nothing. -/
def fetchOneSub (st : SvcState) (sub : String) (env : StepEnv) : StepOut :=
  match listingCacheLookup st sub env.now with
  | some cached =>
      { posts := cached
        st := st
        log := { afterParam := none, cacheHit := true,
                 networkCalled := false, inserted := false } }
  | none =>
    let afterP := afterParamOf (lookupKV st.lastSeen sub)
    match env.resp with
    | FetchOutcome.err =>
        { posts := []
          st := st
          log := { afterParam := afterP, cacheHit := false,
                   networkCalled := true, inserted := false } }
    | FetchOutcome.ok [] =>
        { posts := []
          st := st
          log := { afterParam := afterP, cacheHit := false,
                   networkCalled := true, inserted := false } }
    | FetchOutcome.ok (c :: cs) =>
        let posts := ((c :: cs).filter passesQualityFilter).map rawToPost
        { posts := posts
          st := { st with
            lastSeen := mapSet st.lastSeen sub c.id
            postCache := mapSet st.postCache (sub, env.now) ⟨posts, env.now2⟩ }
          log := { afterParam := afterP, cacheHit := false,
                   networkCalled := true, inserted := true } }

/-- What one listing response contributes to the run when the cache
misses: nothing on a failure or an empty response, the filtered and
mapped children otherwise. -/
def localResult : FetchOutcome (List RawPost) → List Post
  | FetchOutcome.ok children =>
      (children.filter passesQualityFilter).map rawToPost
  | FetchOutcome.err => []

/-- Result of a whole run. -/
structure RunOut where
  posts : List Post
  st : SvcState
  logs : List StepLog
deriving DecidableEq, Repr

/-- Model of the batch loop of lines 93-167: one step per subreddit,
each step followed by the comment phase on its surviving posts, results
accumulated in order. cf supplies the comment-phase environments by
global call index. -/
def runSteps (cf : Nat → CEnv) :
    SvcState → List (String × StepEnv) → Nat → RunOut
  | st, [], _ => { posts := [], st := st, logs := [] }
  | st, (sub, env) :: rest, ci =>
    let o := fetchOneSub st sub env
    let co := fetchCommentsForPostsM o.st.commentCache cf ci o.posts
    let st2 := { o.st with commentCache := co.cache }
    let r := runSteps cf st2 rest co.next
    { posts := co.posts ++ r.posts, st := r.st, logs := o.log :: r.logs }

/-- A response that advances the cursor and fills the cache: a
successful non-empty listing. -/
def isNonemptyOk : FetchOutcome (List RawPost) → Bool
  | FetchOutcome.ok (_ :: _) => true
  | _ => false

/-- All keys of the listing cache carry a clock strictly below t. -/
def keysBelow (st : SvcState) (t : Nat) : Bool :=
  st.postCache.all (fun kv => decide (kv.1.2 < t))

/-- The clocks of an environment trace are coherent and start at or
after t: each step reads its key clock no earlier than t, inserts no
earlier than it reads, and the next step starts strictly later. This is
the real-time behavior of the source, where the clock calls of a step
happen after every clock call of the previous steps. -/
def freshFrom (t : Nat) : List StepEnv → Bool
  | [] => true
  | e :: es =>
      decide (t ≤ e.now) && decide (e.now ≤ e.now2) && freshFrom (e.now2 + 1) es

/-! ### Association-list lemmas -/

theorem lookupKV_mapSet {α β : Type} [DecidableEq α]
    (m : List (α × β)) (k : α) (v : β) (k2 : α) :
    lookupKV (mapSet m k v) k2 = if k = k2 then some v else lookupKV m k2 := by
  induction m with
  | nil => simp [mapSet, lookupKV]
  | cons kv rest ih =>
    obtain ⟨k1, v1⟩ := kv
    by_cases h1 : k1 = k
    · subst h1
      by_cases h2 : k1 = k2 <;> simp [mapSet, lookupKV, h2]
    · by_cases h2 : k1 = k2
      · subst h2
        have : ¬ k = k1 := fun h => h1 h.symm
        simp [mapSet, lookupKV, h1, this]
      · simp [mapSet, lookupKV, h1, h2, ih]

theorem mem_mapSet {α β : Type} [DecidableEq α]
    (m : List (α × β)) (k : α) (v : β) (kv : α × β)
    (h : kv ∈ mapSet m k v) : kv = (k, v) ∨ kv ∈ m := by
  induction m with
  | nil =>
    simp [mapSet] at h
    exact Or.inl h
  | cons kv1 rest ih =>
    obtain ⟨k1, v1⟩ := kv1
    by_cases h1 : k1 = k
    · subst h1
      simp [mapSet] at h
      rcases h with h | h
      · exact Or.inl h
      · exact Or.inr (List.mem_cons_of_mem _ h)
    · simp [mapSet, h1] at h
      rcases h with h | h
      · exact Or.inr (by rw [h]; exact List.mem_cons_self _ _)
      · rcases ih h with h2 | h2
        · exact Or.inl h2
        · exact Or.inr (List.mem_cons_of_mem _ h2)

theorem lookupKV_mem {α β : Type} [DecidableEq α]
    (m : List (α × β)) (k : α) (v : β)
    (h : lookupKV m k = some v) : (k, v) ∈ m := by
  induction m with
  | nil => simp [lookupKV] at h
  | cons kv rest ih =>
    obtain ⟨k1, v1⟩ := kv
    by_cases h1 : k1 = k
    · subst h1
      simp [lookupKV] at h
      subst h
      exact List.mem_cons_self _ _
    · simp [lookupKV, h1] at h
      exact List.mem_cons_of_mem _ (ih h)

theorem mapSet_length_of_absent {α β : Type} [DecidableEq α]
    (m : List (α × β)) (k : α) (v : β)
    (h : lookupKV m k = none) :
    (mapSet m k v).length = m.length + 1 := by
  induction m with
  | nil => simp [mapSet]
  | cons kv rest ih =>
    obtain ⟨k1, v1⟩ := kv
    by_cases h1 : k1 = k
    · subst h1
      simp [lookupKV] at h
    · simp [lookupKV, h1] at h
      simp [mapSet, h1, ih h]

theorem lookupKV_time_bound {β : Type}
    (m : List ((String × Nat) × β)) (t now : Nat) (sub : String)
    (hb : ∀ kv ∈ m, kv.1.2 < t) (hle : t ≤ now) :
    lookupKV m (sub, now) = none := by
  induction m with
  | nil => rfl
  | cons kv rest ih =>
    obtain ⟨⟨s1, t1⟩, v1⟩ := kv
    have hlt : t1 < t := hb _ (List.mem_cons_self _ _)
    have hne : (s1, t1) ≠ (sub, now) := by
      intro hcontra
      have : t1 = now := congrArg Prod.snd hcontra
      omega
    simp only [lookupKV, hne, if_false]
    exact ih (fun kv hkv => hb kv (List.mem_cons_of_mem _ hkv))

/-! ### Helper lemmas about the comment phase and the quality filter -/

/-- A post built by the listing pipeline carries no comments, so
stripping is the identity on it. -/
theorem strip_rawToPost (r : RawPost) :
    stripComments (rawToPost r) = rawToPost r := rfl

/-- The comment phase changes nothing of a post but top_comments. -/
theorem processPost_strip (cache : List (String × CommentCacheEntry))
    (p : Post) (env : CEnv) :
    stripComments (processPost cache p env).post = stripComments p := by
  unfold processPost
  split
  · rfl
  · split
    · rfl
    · rfl

/-- The comment phase returns the same posts in the same order, up to
their top_comments field. -/
theorem fetchCommentsForPosts_strip (cf : Nat → CEnv) :
    ∀ (posts : List Post) (cache : List (String × CommentCacheEntry)) (i : Nat),
    (fetchCommentsForPostsM cache cf i posts).posts.map stripComments =
      posts.map stripComments := by
  intro posts
  induction posts with
  | nil => intro cache i; rfl
  | cons p ps ih =>
    intro cache i
    simp only [fetchCommentsForPostsM, List.map_cons]
    rw [processPost_strip, ih]

/-- A post is good when it is the image of a raw post accepted by the
default quality predicate, up to attached comments. -/
def GoodPost (p : Post) : Prop :=
  ∃ r : RawPost, passesQualityFilter r = true ∧ stripComments p = rawToPost r

/-- Every entry of the listing cache holds only good posts. Runs start
with an empty cache, and the run itself only inserts filtered posts, so
this is an invariant of every reachable state. -/
def CacheGood (st : SvcState) : Prop :=
  ∀ kv ∈ st.postCache, ∀ p ∈ kv.2.posts, GoodPost p

theorem goodPost_of_strip_eq (p q : Post)
    (h : stripComments p = stripComments q) (hq : GoodPost q) : GoodPost p := by
  obtain ⟨r, hr, hs⟩ := hq
  exact ⟨r, hr, h.trans hs⟩

theorem goodPost_fields (p : Post) (h : GoodPost p) :
    10 < p.score ∧ 5 < p.num_comments ∧ 0 < selftextLen p.selftext := by
  obtain ⟨r, hr, hstrip⟩ := h
  have hscore : p.score = r.score := congrArg Post.score hstrip
  have hnc : p.num_comments = r.num_comments := congrArg Post.num_comments hstrip
  have hsel : p.selftext = r.selftext := congrArg Post.selftext hstrip
  simp only [passesQualityFilter, Bool.and_eq_true, decide_eq_true_eq] at hr
  obtain ⟨⟨⟨⟨hs, hc⟩, _⟩, _⟩, hl⟩ := hr
  rw [hscore, hnc, hsel]
  exact ⟨hs, hc, hl⟩

/-- Unpacking a listing-cache hit. -/
theorem listingCacheLookup_some (st : SvcState) (sub : String) (now : Nat)
    (cached : List Post) (h : listingCacheLookup st sub now = some cached) :
    ∃ e, lookupKV st.postCache (sub, now) = some e ∧ e.posts = cached := by
  unfold listingCacheLookup at h
  cases hk : lookupKV st.postCache (sub, now) with
  | none => rw [hk] at h; exact absurd h (by simp)
  | some e =>
    rw [hk] at h
    by_cases hv : isCacheValid e.timestamp now = true
    · simp only [hv, if_true] at h
      exact ⟨e, rfl, Option.some_injective _ h⟩
    · simp only [Bool.not_eq_true] at hv
      simp [hv] at h

/-- Every post a step yields is good, whether it came from the cache of
a good state or from filtering a fresh response. -/
theorem fetchOneSub_posts_good (st : SvcState) (sub : String) (env : StepEnv)
    (hgood : CacheGood st) :
    ∀ p ∈ (fetchOneSub st sub env).posts, GoodPost p := by
  intro p hp
  unfold fetchOneSub at hp
  cases hl : listingCacheLookup st sub env.now with
  | some cached =>
    rw [hl] at hp
    simp only at hp
    obtain ⟨e, hk, he⟩ := listingCacheLookup_some st sub env.now cached hl
    exact hgood _ (lookupKV_mem _ _ _ hk) p (he ▸ hp)
  | none =>
    rw [hl] at hp
    cases hresp : env.resp with
    | err => rw [hresp] at hp; simp at hp
    | ok l =>
      rw [hresp] at hp
      cases l with
      | nil => simp at hp
      | cons c cs =>
        simp only [List.mem_map] at hp
        obtain ⟨r, hrmem, hrp⟩ := hp
        have hpass : passesQualityFilter r = true :=
          (List.mem_filter.mp hrmem).2
        exact ⟨r, hpass, by rw [← hrp]; exact strip_rawToPost r⟩

/-- A step preserves the listing-cache invariant: it inserts only
filtered posts. -/
theorem fetchOneSub_cacheGood (st : SvcState) (sub : String) (env : StepEnv)
    (hgood : CacheGood st) :
    CacheGood (fetchOneSub st sub env).st := by
  unfold fetchOneSub
  cases hl : listingCacheLookup st sub env.now with
  | some cached => exact hgood
  | none =>
    cases hresp : env.resp with
    | err => exact hgood
    | ok l =>
      cases l with
      | nil => exact hgood
      | cons c cs =>
        intro kv hkv p hp
        simp only at hkv
        rcases mem_mapSet _ _ _ _ hkv with hnew | hold
        · subst hnew
          simp only at hp
          simp only [List.mem_map] at hp
          obtain ⟨r, hrmem, hrp⟩ := hp
          exact ⟨r, (List.mem_filter.mp hrmem).2, by rw [← hrp]; exact strip_rawToPost r⟩
        · exact hgood _ hold p hp

/-! ### Freshness of the listing-cache keys -/

theorem keysBelow_mono (st : SvcState) (t u : Nat)
    (h : keysBelow st t = true) (hle : t ≤ u) : keysBelow st u = true := by
  simp only [keysBelow, List.all_eq_true] at h ⊢
  intro kv hkv
  have := of_decide_eq_true (h kv hkv)
  exact decide_eq_true (by omega)

theorem listingCacheLookup_none_of_fresh (st : SvcState) (sub : String)
    (now t : Nat) (hb : keysBelow st t = true) (hle : t ≤ now) :
    listingCacheLookup st sub now = none := by
  have hnone : lookupKV st.postCache (sub, now) = none := by
    apply lookupKV_time_bound st.postCache t now sub ?_ hle
    intro kv hkv
    simp only [keysBelow, List.all_eq_true] at hb
    exact of_decide_eq_true (hb kv hkv)
  unfold listingCacheLookup
  rw [hnone]

theorem keysBelow_after_insert (st st2 : SvcState) (sub : String)
    (nw n2 t : Nat) (e : PostCacheEntry)
    (hpc : st2.postCache = mapSet st.postCache (sub, nw) e)
    (hb : keysBelow st t = true) (h1 : t ≤ nw) (h2 : nw ≤ n2) :
    keysBelow st2 (n2 + 1) = true := by
  simp only [keysBelow, List.all_eq_true] at hb ⊢
  rw [hpc]
  intro kv hkv
  rcases mem_mapSet _ _ _ _ hkv with h | h
  · subst h
    exact decide_eq_true (by simp; omega)
  · have := of_decide_eq_true (hb kv h)
    exact decide_eq_true (by omega)

/-! ### Characterizations of one step on a cache miss -/

theorem fetchOneSub_err (st : SvcState) (sub : String) (env : StepEnv)
    (hmiss : listingCacheLookup st sub env.now = none)
    (hresp : env.resp = FetchOutcome.err) :
    fetchOneSub st sub env =
      { posts := []
        st := st
        log := { afterParam := afterParamOf (lookupKV st.lastSeen sub),
                 cacheHit := false, networkCalled := true,
                 inserted := false } } := by
  unfold fetchOneSub
  rw [hmiss, hresp]

theorem fetchOneSub_empty (st : SvcState) (sub : String) (env : StepEnv)
    (hmiss : listingCacheLookup st sub env.now = none)
    (hresp : env.resp = FetchOutcome.ok []) :
    fetchOneSub st sub env =
      { posts := []
        st := st
        log := { afterParam := afterParamOf (lookupKV st.lastSeen sub),
                 cacheHit := false, networkCalled := true,
                 inserted := false } } := by
  unfold fetchOneSub
  rw [hmiss, hresp]

theorem fetchOneSub_nonempty (st : SvcState) (sub : String) (env : StepEnv)
    (c : RawPost) (cs : List RawPost)
    (hmiss : listingCacheLookup st sub env.now = none)
    (hresp : env.resp = FetchOutcome.ok (c :: cs)) :
    fetchOneSub st sub env =
      { posts := ((c :: cs).filter passesQualityFilter).map rawToPost
        st := { st with
          lastSeen := mapSet st.lastSeen sub c.id
          postCache := mapSet st.postCache (sub, env.now)
            ⟨((c :: cs).filter passesQualityFilter).map rawToPost, env.now2⟩ }
        log := { afterParam := afterParamOf (lookupKV st.lastSeen sub),
                 cacheHit := false, networkCalled := true,
                 inserted := true } } := by
  unfold fetchOneSub
  rw [hmiss, hresp]

/-- Stripping is the identity on a freshly mapped listing. -/
theorem strip_map_rawToPost (l : List RawPost) :
    (l.map rawToPost).map stripComments = l.map rawToPost := by
  induction l with
  | nil => rfl
  | cons r rs ih => simp only [List.map_cons, ih, strip_rawToPost]

/-! ### Run-level lemmas under fresh clocks -/

theorem runSteps_posts_flatten (cf : Nat → CEnv) :
    ∀ (trace : List (String × StepEnv)) (st : SvcState) (ci t : Nat),
    keysBelow st t = true → freshFrom t (trace.map Prod.snd) = true →
    (runSteps cf st trace ci).posts.map stripComments =
      (trace.map (fun se => localResult se.2.resp)).flatten := by
  intro trace
  induction trace with
  | nil => intro st ci t hb hf; rfl
  | cons se rest ih =>
    obtain ⟨sub, env⟩ := se
    intro st ci t hb hf
    simp only [List.map_cons, freshFrom, Bool.and_eq_true,
      decide_eq_true_eq] at hf
    obtain ⟨⟨h1, h2⟩, hf2⟩ := hf
    have hmiss := listingCacheLookup_none_of_fresh st sub env.now t hb h1
    simp only [runSteps, List.map_cons, List.flatten_cons, List.map_append]
    rw [fetchCommentsForPosts_strip]
    cases hresp : env.resp with
    | err =>
      rw [fetchOneSub_err st sub env hmiss hresp]
      simp only [fetchCommentsForPostsM, localResult, List.map_nil,
        List.nil_append]
      exact ih _ _ (env.now2 + 1)
        (by exact keysBelow_mono st t (env.now2 + 1) hb (by omega)) hf2
    | ok l =>
      cases l with
      | nil =>
        rw [fetchOneSub_empty st sub env hmiss hresp]
        simp only [fetchCommentsForPostsM, localResult, List.map_nil,
          List.filter_nil, List.nil_append]
        exact ih _ _ (env.now2 + 1)
          (by exact keysBelow_mono st t (env.now2 + 1) hb (by omega)) hf2
      | cons c cs =>
        rw [fetchOneSub_nonempty st sub env c cs hmiss hresp]
        simp only [localResult, strip_map_rawToPost]
        refine congrArg₂ (· ++ ·) rfl ?_
        refine ih _ _ (env.now2 + 1) ?_ hf2
        exact keysBelow_after_insert st _ sub env.now env.now2 t _ rfl hb h1 h2

/-- On a cache miss the log of a step is fully determined: a request
went out with the stored after cursor, and an entry was inserted
exactly when the response was a non-empty success. -/
theorem fetchOneSub_log_miss (st : SvcState) (sub : String) (env : StepEnv)
    (hmiss : listingCacheLookup st sub env.now = none) :
    (fetchOneSub st sub env).log =
      { afterParam := afterParamOf (lookupKV st.lastSeen sub)
        cacheHit := false
        networkCalled := true
        inserted := isNonemptyOk env.resp } := by
  cases hresp : env.resp with
  | err => rw [fetchOneSub_err st sub env hmiss hresp]; rfl
  | ok l =>
    cases l with
    | nil => rw [fetchOneSub_empty st sub env hmiss hresp]; rfl
    | cons c cs => rw [fetchOneSub_nonempty st sub env c cs hmiss hresp]; rfl

/-- A missing step started at a fresh clock leaves all listing-cache
keys below the next fresh clock. -/
theorem fetchOneSub_keysBelow (st : SvcState) (sub : String) (env : StepEnv)
    (t : Nat) (hb : keysBelow st t = true) (h1 : t ≤ env.now)
    (h2 : env.now ≤ env.now2)
    (hmiss : listingCacheLookup st sub env.now = none) :
    keysBelow (fetchOneSub st sub env).st (env.now2 + 1) = true := by
  cases hresp : env.resp with
  | err =>
    rw [fetchOneSub_err st sub env hmiss hresp]
    exact keysBelow_mono st t _ hb (by omega)
  | ok l =>
    cases l with
    | nil =>
      rw [fetchOneSub_empty st sub env hmiss hresp]
      exact keysBelow_mono st t _ hb (by omega)
    | cons c cs =>
      rw [fetchOneSub_nonempty st sub env c cs hmiss hresp]
      exact keysBelow_after_insert st _ sub env.now env.now2 t _ rfl hb h1 h2

theorem runSteps_logs_no_hit (cf : Nat → CEnv) :
    ∀ (trace : List (String × StepEnv)) (st : SvcState) (ci t : Nat),
    keysBelow st t = true → freshFrom t (trace.map Prod.snd) = true →
    ∀ lg ∈ (runSteps cf st trace ci).logs,
      lg.cacheHit = false ∧ lg.networkCalled = true := by
  intro trace
  induction trace with
  | nil => intro st ci t hb hf lg hlg; simp [runSteps] at hlg
  | cons se rest ih =>
    obtain ⟨sub, env⟩ := se
    intro st ci t hb hf
    simp only [List.map_cons, freshFrom, Bool.and_eq_true,
      decide_eq_true_eq] at hf
    obtain ⟨⟨h1, h2⟩, hf2⟩ := hf
    have hmiss := listingCacheLookup_none_of_fresh st sub env.now t hb h1
    have hkb2 := fetchOneSub_keysBelow st sub env t hb h1 h2 hmiss
    intro lg hlg
    simp only [runSteps, List.mem_cons] at hlg
    rcases hlg with hhead | htail
    · rw [hhead, fetchOneSub_log_miss st sub env hmiss]
      exact ⟨rfl, rfl⟩
    · exact ih _ _ (env.now2 + 1) (by exact hkb2) hf2 lg htail

theorem runSteps_logs_inserted (cf : Nat → CEnv) :
    ∀ (trace : List (String × StepEnv)) (st : SvcState) (ci t : Nat),
    keysBelow st t = true → freshFrom t (trace.map Prod.snd) = true →
    ∀ pr ∈ (runSteps cf st trace ci).logs.zip trace,
      pr.1.inserted = isNonemptyOk pr.2.2.resp := by
  intro trace
  induction trace with
  | nil => intro st ci t hb hf pr hpr; simp [runSteps] at hpr
  | cons se rest ih =>
    obtain ⟨sub, env⟩ := se
    intro st ci t hb hf
    simp only [List.map_cons, freshFrom, Bool.and_eq_true,
      decide_eq_true_eq] at hf
    obtain ⟨⟨h1, h2⟩, hf2⟩ := hf
    have hmiss := listingCacheLookup_none_of_fresh st sub env.now t hb h1
    have hkb2 := fetchOneSub_keysBelow st sub env t hb h1 h2 hmiss
    intro pr hpr
    simp only [runSteps, List.zip_cons_cons, List.mem_cons] at hpr
    rcases hpr with hhead | htail
    · rw [hhead]
      simp only [fetchOneSub_log_miss st sub env hmiss]
    · exact ih _ _ (env.now2 + 1) (by exact hkb2) hf2 pr htail

theorem runSteps_postCache_length (cf : Nat → CEnv) :
    ∀ (trace : List (String × StepEnv)) (st : SvcState) (ci t : Nat),
    keysBelow st t = true → freshFrom t (trace.map Prod.snd) = true →
    (runSteps cf st trace ci).st.postCache.length =
      st.postCache.length +
        (trace.filter (fun se => isNonemptyOk se.2.resp)).length := by
  intro trace
  induction trace with
  | nil => intro st ci t hb hf; simp [runSteps]
  | cons se rest ih =>
    obtain ⟨sub, env⟩ := se
    intro st ci t hb hf
    simp only [List.map_cons, freshFrom, Bool.and_eq_true,
      decide_eq_true_eq] at hf
    obtain ⟨⟨h1, h2⟩, hf2⟩ := hf
    have hmiss := listingCacheLookup_none_of_fresh st sub env.now t hb h1
    simp only [runSteps]
    cases hresp : env.resp with
    | err =>
      rw [fetchOneSub_err st sub env hmiss hresp]
      simp only [fetchCommentsForPostsM]
      rw [ih _ _ (env.now2 + 1)
        (keysBelow_mono st t (env.now2 + 1) hb (by omega)) hf2]
      simp only [List.filter_cons, hresp]
      rfl
    | ok l =>
      cases l with
      | nil =>
        rw [fetchOneSub_empty st sub env hmiss hresp]
        simp only [fetchCommentsForPostsM]
        rw [ih _ _ (env.now2 + 1)
          (keysBelow_mono st t (env.now2 + 1) hb (by omega)) hf2]
        simp only [List.filter_cons, hresp]
        rfl
      | cons c cs =>
        rw [fetchOneSub_nonempty st sub env c cs hmiss hresp]
        dsimp only
        set P := ((c :: cs).filter passesQualityFilter).map rawToPost with hP
        set CO := fetchCommentsForPostsM st.commentCache cf ci P with hCO
        have hb3 : keysBelow
            ({ lastSeen := mapSet st.lastSeen sub c.id
               postCache := mapSet st.postCache (sub, env.now) ⟨P, env.now2⟩
               commentCache := CO.cache } : SvcState) (env.now2 + 1) = true :=
          keysBelow_after_insert st _ sub env.now env.now2 t _ rfl hb h1 h2
        rw [ih _ _ (env.now2 + 1) hb3 hf2]
        have habsent : lookupKV st.postCache (sub, env.now) = none := by
          apply lookupKV_time_bound st.postCache t env.now sub ?_ h1
          intro kv hkv
          simp only [keysBelow, List.all_eq_true] at hb
          exact of_decide_eq_true (hb kv hkv)
        rw [mapSet_length_of_absent st.postCache (sub, env.now) _ habsent]
        have hfc : (((sub, env) :: rest).filter
            (fun se => isNonemptyOk se.2.resp)) =
            (sub, env) :: rest.filter (fun se => isNonemptyOk se.2.resp) := by
          simp only [List.filter_cons, hresp]
          rfl
        rw [hfc]
        simp only [List.length_cons]
        omega

/-! ## Claim theorems on the orchestrator -/

/-- A step never removes a cursor: whatever branch runs, a present
cursor stays present. -/
theorem fetchOneSub_cursor_present (st : SvcState) (sub : String)
    (env : StepEnv) (s c : String)
    (h : lookupKV st.lastSeen s = some c) :
    ∃ c2, lookupKV (fetchOneSub st sub env).st.lastSeen s = some c2 := by
  cases hl : listingCacheLookup st sub env.now with
  | some cached =>
    refine ⟨c, ?_⟩
    unfold fetchOneSub
    rw [hl]
    exact h
  | none =>
    cases hresp : env.resp with
    | err =>
      rw [fetchOneSub_err st sub env hl hresp]
      exact ⟨c, h⟩
    | ok l =>
      cases l with
      | nil =>
        rw [fetchOneSub_empty st sub env hl hresp]
        exact ⟨c, h⟩
      | cons hd tl =>
        rw [fetchOneSub_nonempty st sub env hd tl hl hresp]
        dsimp only
        by_cases hs : sub = s
        · exact ⟨hd.id, by rw [lookupKV_mapSet]; simp [hs]⟩
        · exact ⟨c, by rw [lookupKV_mapSet]; simp [hs]; exact h⟩

/-- A whole run never removes a cursor. -/
theorem runSteps_cursor_present (cf : Nat → CEnv) :
    ∀ (trace : List (String × StepEnv)) (st : SvcState) (ci : Nat)
      (s c : String), lookupKV st.lastSeen s = some c →
    ∃ c2, lookupKV (runSteps cf st trace ci).st.lastSeen s = some c2 := by
  intro trace
  induction trace with
  | nil => intro st ci s c h; exact ⟨c, h⟩
  | cons se rest ih =>
    obtain ⟨sub, env⟩ := se
    intro st ci s c h
    obtain ⟨c1, h1⟩ := fetchOneSub_cursor_present st sub env s c h
    simp only [runSteps]
    exact ih _ _ s c1 (by exact h1)

/-- C4: the pagination cursor of a source is written only on a
non-empty successful listing response, to the id of its first element;
the listing request of a step carries the stored cursor as its after
parameter whenever that cursor is present and non-empty, and carries
none when no cursor is stored; an error or an empty response leaves the
cursor map untouched, a cache hit leaves the whole state untouched; and
once a cursor is present for a source, it stays present through any
run, so within a process lifetime it only ever advances to the head of
a newer response. -/
theorem cursor_write_and_after_param :
    (∀ (st : SvcState) (sub : String) (env : StepEnv) (c : String),
      listingCacheLookup st sub env.now = none →
      lookupKV st.lastSeen sub = some c → c ≠ "" →
      (fetchOneSub st sub env).log.afterParam = some c) ∧
    (∀ (st : SvcState) (sub : String) (env : StepEnv),
      listingCacheLookup st sub env.now = none →
      lookupKV st.lastSeen sub = none →
      (fetchOneSub st sub env).log.afterParam = none) ∧
    (∀ (st : SvcState) (sub : String) (env : StepEnv) (c : RawPost)
        (cs : List RawPost),
      listingCacheLookup st sub env.now = none →
      env.resp = FetchOutcome.ok (c :: cs) →
      (fetchOneSub st sub env).st.lastSeen = mapSet st.lastSeen sub c.id ∧
      lookupKV (fetchOneSub st sub env).st.lastSeen sub = some c.id) ∧
    (∀ (st : SvcState) (sub : String) (env : StepEnv),
      listingCacheLookup st sub env.now = none →
      (env.resp = FetchOutcome.err ∨ env.resp = FetchOutcome.ok []) →
      (fetchOneSub st sub env).st.lastSeen = st.lastSeen) ∧
    (∀ (st : SvcState) (sub : String) (env : StepEnv) (cached : List Post),
      listingCacheLookup st sub env.now = some cached →
      (fetchOneSub st sub env).st = st) ∧
    (∀ (cf : Nat → CEnv) (st : SvcState) (trace : List (String × StepEnv))
        (ci : Nat) (s c : String),
      lookupKV st.lastSeen s = some c →
      ∃ c2, lookupKV (runSteps cf st trace ci).st.lastSeen s = some c2) := by
  refine ⟨?_, ?_, ?_, ?_, ?_, ?_⟩
  · intro st sub env c hmiss hcur hc
    rw [fetchOneSub_log_miss st sub env hmiss]
    dsimp only
    rw [hcur]
    simp [afterParamOf, hc]
  · intro st sub env hmiss hcur
    rw [fetchOneSub_log_miss st sub env hmiss]
    dsimp only
    rw [hcur]
    rfl
  · intro st sub env c cs hmiss hresp
    rw [fetchOneSub_nonempty st sub env c cs hmiss hresp]
    refine ⟨rfl, ?_⟩
    dsimp only
    rw [lookupKV_mapSet]
    simp
  · intro st sub env hmiss hfail
    rcases hfail with hresp | hresp
    · rw [fetchOneSub_err st sub env hmiss hresp]
    · rw [fetchOneSub_empty st sub env hmiss hresp]
  · intro st sub env cached hhit
    unfold fetchOneSub
    rw [hhit]
  · intro cf st trace ci s c h
    exact runSteps_cursor_present cf trace st ci s c h

/-- The state and environments used by the concrete witnesses. -/
def emptySvc : SvcState :=
  { lastSeen := [], postCache := [], commentCache := [] }

/-- A raw post passing the default quality predicate. -/
def qualityWitnessRaw : RawPost :=
  { searchCexPost with score := 11, num_comments := 6 }

/-- A comment-phase oracle answering every call with a valid token and
an empty successful comments response. -/
def witnessCf : Nat → CEnv :=
  fun _ => { now := 0, now2 := 0, token := Except.ok "tk",
             resp := FetchOutcome.ok [] }

/-- One-step trace with a qualifying post. -/
def witnessTrace : List (String × StepEnv) :=
  [("demo", { now := 1, now2 := 2, resp := FetchOutcome.ok [qualityWitnessRaw] })]

/-- State holding a cursor for source demo, as after a first run that
saw the post id abc123. -/
def cursorSvc : SvcState :=
  { lastSeen := [("demo", "abc123")], postCache := [], commentCache := [] }

/-- C4 witness: the theorem applied at concrete states: a stored cursor
abc123 appears as the after parameter of the next request for demo, a
fresh non-empty response writes the cursor to the head id, an error
leaves the cursor map untouched, and the cursor survives a further run. -/
theorem cursor_write_and_after_param_witness :
    (fetchOneSub cursorSvc "demo"
      { now := 5, now2 := 6, resp := FetchOutcome.ok [] }).log.afterParam =
        some "abc123" ∧
    (fetchOneSub emptySvc "demo"
      { now := 1, now2 := 2,
        resp := FetchOutcome.ok [qualityWitnessRaw] }).st.lastSeen =
      mapSet emptySvc.lastSeen "demo" qualityWitnessRaw.id ∧
    (fetchOneSub cursorSvc "demo"
      { now := 5, now2 := 6, resp := FetchOutcome.err }).st.lastSeen =
      cursorSvc.lastSeen ∧
    (∃ c2, lookupKV
      (runSteps witnessCf cursorSvc witnessTrace 0).st.lastSeen "demo" =
        some c2) := by
  refine ⟨?_, ?_, ?_, ?_⟩
  · exact cursor_write_and_after_param.1 cursorSvc "demo"
      { now := 5, now2 := 6, resp := FetchOutcome.ok [] } "abc123"
      (by decide) rfl (by decide)
  · exact (cursor_write_and_after_param.2.2.1 emptySvc "demo"
      { now := 1, now2 := 2, resp := FetchOutcome.ok [qualityWitnessRaw] }
      qualityWitnessRaw [] (by decide) rfl).1
  · exact cursor_write_and_after_param.2.2.2.1 cursorSvc "demo"
      { now := 5, now2 := 6, resp := FetchOutcome.err }
      (by decide) (Or.inl rfl)
  · exact cursor_write_and_after_param.2.2.2.2.2 witnessCf cursorSvc
      witnessTrace 0 "demo" "abc123" rfl

/-- C6: per-source and per-item failures are absorbed locally. First
conjunct: under fresh clocks the run result is exactly the
concatenation of every per-source local result, so a failing or empty
source contributes nothing while every other source still contributes
its filtered items and the run completes. Second conjunct: when a
post's comment fetch fails (auth failure thrown into the catch block,
or an upstream failure absorbed inside fetchTopComments), the owning
post gets an empty top_comments and is otherwise unchanged. Third
conjunct: the comment phase returns every input post, in order,
whatever happens to the individual fetches. -/
theorem failure_isolation :
    (∀ (cf : Nat → CEnv) (st : SvcState) (trace : List (String × StepEnv))
        (ci t : Nat), keysBelow st t = true →
        freshFrom t (trace.map Prod.snd) = true →
        (runSteps cf st trace ci).posts.map stripComments =
          (trace.map (fun se => localResult se.2.resp)).flatten) ∧
    (∀ (cache : List (String × CommentCacheEntry)) (p : Post) (env : CEnv),
        commentCacheLookup cache p.id env.now = none →
        (env.token = Except.error () ∨ env.resp = FetchOutcome.err) →
        (processPost cache p env).post.top_comments = [] ∧
        stripComments (processPost cache p env).post = stripComments p) ∧
    (∀ (cache : List (String × CommentCacheEntry)) (cf : Nat → CEnv)
        (i : Nat) (posts : List Post),
        (fetchCommentsForPostsM cache cf i posts).posts.map stripComments =
          posts.map stripComments) := by
  refine ⟨?_, ?_, ?_⟩
  · intro cf st trace ci t hb hf
    exact runSteps_posts_flatten cf trace st ci t hb hf
  · intro cache p env hmiss hfail
    constructor
    · unfold processPost
      rw [hmiss]
      rcases hfail with htok | hresp
      · rw [htok]; rfl
      · cases htok2 : env.token with
        | error e => rfl
        | ok tk => rw [hresp]; rfl
    · exact processPost_strip cache p env
  · intro cache cf i posts
    exact fetchCommentsForPosts_strip cf posts cache i

/-- Two-source trace of the isolation scenario: source alpha fails,
source beta answers with one qualifying post. -/
def isolationTrace : List (String × StepEnv) :=
  [("alpha", { now := 1, now2 := 2, resp := FetchOutcome.err }),
   ("beta", { now := 3, now2 := 4,
              resp := FetchOutcome.ok [qualityWitnessRaw] })]

/-- C6 witness: the theorem applied at the concrete two-source trace
(the failing source contributes nothing, the other one item) and at a
concrete post whose comment fetch throws an auth failure. -/
theorem failure_isolation_witness :
    (runSteps witnessCf emptySvc isolationTrace 0).posts.map stripComments =
      (isolationTrace.map (fun se => localResult se.2.resp)).flatten ∧
    (processPost [] (rawToPost qualityWitnessRaw)
      { now := 9, now2 := 9, token := Except.error (),
        resp := FetchOutcome.ok [] }).post.top_comments = [] ∧
    (fetchCommentsForPostsM [] witnessCf 0
      [rawToPost qualityWitnessRaw]).posts.map stripComments =
      [rawToPost qualityWitnessRaw].map stripComments := by
  refine ⟨?_, ?_, ?_⟩
  · exact failure_isolation.1 witnessCf emptySvc isolationTrace 0 0
      (by decide) (by decide)
  · exact (failure_isolation.2.1 [] (rawToPost qualityWitnessRaw)
      { now := 9, now2 := 9, token := Except.error (),
        resp := FetchOutcome.ok [] } (by decide) (Or.inl rfl)).1
  · exact failure_isolation.2.2 [] witnessCf 0 [rawToPost qualityWitnessRaw]

/-- C10 counterexample: a listing fetch answered by an empty listing
issues a network call but inserts nothing into the listing cache, so it
is not the case that every fetch inserts one new entry. -/
theorem empty_listing_no_insert_cex :
    (fetchOneSub emptySvc "demo"
      { now := 1, now2 := 2, resp := FetchOutcome.ok [] }).log.networkCalled
        = true ∧
    ¬ ((fetchOneSub emptySvc "demo"
        { now := 1, now2 := 2,
          resp := FetchOutcome.ok [] }).st.postCache.length =
      emptySvc.postCache.length + 1) := by
  decide

/-- C10 amended: under fresh clocks every listing-cache lookup of a run
misses, so every step issues a network call and the cache never serves
a hit; a step inserts a new cache entry exactly when its response is a
non-empty success, and the cache grows by exactly the number of such
steps. -/
theorem listing_cache_always_misses (cf : Nat → CEnv) (st : SvcState)
    (trace : List (String × StepEnv)) (ci t : Nat)
    (hb : keysBelow st t = true)
    (hf : freshFrom t (trace.map Prod.snd) = true) :
    (∀ lg ∈ (runSteps cf st trace ci).logs,
      lg.cacheHit = false ∧ lg.networkCalled = true) ∧
    (∀ pr ∈ (runSteps cf st trace ci).logs.zip trace,
      pr.1.inserted = isNonemptyOk pr.2.2.resp) ∧
    (runSteps cf st trace ci).st.postCache.length =
      st.postCache.length +
        (trace.filter (fun se => isNonemptyOk se.2.resp)).length :=
  ⟨runSteps_logs_no_hit cf trace st ci t hb hf,
   runSteps_logs_inserted cf trace st ci t hb hf,
   runSteps_postCache_length cf trace st ci t hb hf⟩

/-- C10 witness: the amended theorem applied at the concrete two-source
trace: both steps missed the cache and called the network, the error
step inserted nothing, the non-empty step inserted one entry, and the
cache grew from zero entries to exactly one. -/
theorem listing_cache_always_misses_witness :
    ((fetchOneSub emptySvc "alpha"
        { now := 1, now2 := 2, resp := FetchOutcome.err }).log.cacheHit
          = false ∧
      (fetchOneSub emptySvc "alpha"
        { now := 1, now2 := 2, resp := FetchOutcome.err }).log.networkCalled
          = true) ∧
    (runSteps witnessCf emptySvc isolationTrace 0).st.postCache.length =
      emptySvc.postCache.length +
        (isolationTrace.filter (fun se => isNonemptyOk se.2.resp)).length := by
  have h := listing_cache_always_misses witnessCf emptySvc isolationTrace 0 0
    (by decide) (by decide)
  refine ⟨?_, h.2.2⟩
  exact h.1 (fetchOneSub emptySvc "alpha"
    { now := 1, now2 := 2, resp := FetchOutcome.err }).log (by decide)

/-- C1 counterexample: a comment fetch against a persistently failing
upstream makes exactly one call and returns an empty list normally; it
neither makes three attempts nor re-raises the error. -/
theorem fetchTopComments_no_retry_cex :
    fetchTopCommentsM (Except.ok "tk") 5 FetchOutcome.err =
      (Except.ok [], 1) ∧
    ¬ ((fetchTopCommentsM (Except.ok "tk") 5 FetchOutcome.err).2 = 3) :=
  ⟨rfl, by decide⟩

/-- C1 amended: no retry wrapper exists anywhere; every upstream call
site attempts its call exactly once. A failing token exchange makes one
auth call and propagates the error unchanged (no backoff, no retries,
no tagging); a token fetch never makes more than one auth call; a
listing step on a cache miss issues exactly one listing call and a
failing one contributes an empty result; a comment fetch with a usable
token issues exactly one comments call and a failing one resolves to an
empty list. -/
theorem no_retry_single_attempt :
    (∀ (st : TokenState) (now1 now2 : Nat), tokenValid st now1 = false →
      getAccessTokenM st now1 now2 FetchOutcome.err =
        (Except.error (), 1)) ∧
    (∀ (st : TokenState) (now1 now2 : Nat)
        (resp : FetchOutcome (String × Nat)),
      (getAccessTokenM st now1 now2 resp).2 ≤ 1) ∧
    (∀ (st : SvcState) (sub : String) (env : StepEnv),
      listingCacheLookup st sub env.now = none →
      (fetchOneSub st sub env).log.networkCalled = true ∧
      (env.resp = FetchOutcome.err → (fetchOneSub st sub env).posts = [])) ∧
    (∀ (tk : String) (resp : FetchOutcome (List RawComment)),
      (fetchTopCommentsM (Except.ok tk) 5 resp).2 = 1) ∧
    (∀ tk : String,
      (fetchTopCommentsM (Except.ok tk) 5 FetchOutcome.err).1 =
        Except.ok []) := by
  refine ⟨?_, ?_, ?_, ?_, ?_⟩
  · intro st now1 now2 h
    simp [getAccessTokenM, h]
  · intro st now1 now2 resp
    unfold getAccessTokenM
    by_cases h : tokenValid st now1
    · cases st.accessToken <;> simp [h]
    · cases resp <;> simp [h]
  · intro st sub env hmiss
    constructor
    · rw [fetchOneSub_log_miss st sub env hmiss]
    · intro hresp
      rw [fetchOneSub_err st sub env hmiss hresp]
  · intro tk resp
    cases resp <;> rfl
  · intro tk
    rfl

/-- C1 witness: the amended statement applied at concrete inputs: a
failing refresh from the empty token state, a call count bound at a
valid cached state, a failing listing step, and a failing comment
fetch. -/
theorem no_retry_single_attempt_witness :
    getAccessTokenM ⟨none, none⟩ 5 6 FetchOutcome.err =
      (Except.error (), 1) ∧
    (getAccessTokenM ⟨some "tk", some 9⟩ 5 6
      (FetchOutcome.ok ("t", 60))).2 ≤ 1 ∧
    (fetchOneSub emptySvc "alpha"
      { now := 1, now2 := 2, resp := FetchOutcome.err }).posts = [] ∧
    (fetchTopCommentsM (Except.ok "tk") 5 FetchOutcome.err).2 = 1 := by
  refine ⟨?_, ?_, ?_, ?_⟩
  · exact no_retry_single_attempt.1 ⟨none, none⟩ 5 6 (by decide)
  · exact no_retry_single_attempt.2.1 ⟨some "tk", some 9⟩ 5 6
      (FetchOutcome.ok ("t", 60))
  · exact (no_retry_single_attempt.2.2.1 emptySvc "alpha"
      { now := 1, now2 := 2, resp := FetchOutcome.err } (by decide)).2 rfl
  · exact no_retry_single_attempt.2.2.2.1 "tk" FetchOutcome.err

/-- C3: every item of a collection run comes from a raw item accepted
by the default quality predicate (score > 10, commentCount > 5, not
removed, not deleted, non-empty body), whatever the trace of responses,
provided every listing-cache entry of the starting state holds only
such items (true of the empty cache a process starts with, and
preserved by every run); in particular every returned item has
score > 10, commentCount > 5 and a non-empty body. Raw items failing a
conjunct are dropped by the filter and contribute nothing. -/
theorem run_items_pass_quality_filter (cf : Nat → CEnv) (st : SvcState)
    (trace : List (String × StepEnv)) (ci : Nat) (hgood : CacheGood st) :
    ∀ p ∈ (runSteps cf st trace ci).posts,
      (∃ r : RawPost, passesQualityFilter r = true ∧
        stripComments p = rawToPost r) ∧
      10 < p.score ∧ 5 < p.num_comments ∧ 0 < selftextLen p.selftext := by
  induction trace generalizing st ci with
  | nil => intro p hp; simp [runSteps] at hp
  | cons se rest ih =>
    obtain ⟨sub, env⟩ := se
    intro p hp
    simp only [runSteps, List.mem_append] at hp
    rcases hp with hp | hp
    · have hmap := fetchCommentsForPosts_strip cf (fetchOneSub st sub env).posts
        (fetchOneSub st sub env).st.commentCache ci
      have h1 : stripComments p ∈
          (fetchOneSub st sub env).posts.map stripComments := by
        rw [← hmap]
        exact List.mem_map_of_mem _ hp
      obtain ⟨q, hq, hqe⟩ := List.mem_map.mp h1
      have hgq := fetchOneSub_posts_good st sub env hgood q hq
      have hgp : GoodPost p := goodPost_of_strip_eq p q hqe.symm hgq
      exact ⟨hgp, goodPost_fields p hgp⟩
    · exact ih _ _ (by exact fetchOneSub_cacheGood st sub env hgood) p hp

/-- C3 witness: the theorem applied at a concrete run from the empty
state whose single source answers with one qualifying raw post; the
returned item is that post and satisfies every conjunct. -/
theorem run_items_pass_quality_filter_witness :
    (∃ r : RawPost, passesQualityFilter r = true ∧
      stripComments (rawToPost qualityWitnessRaw) = rawToPost r) ∧
    10 < (rawToPost qualityWitnessRaw).score ∧
    5 < (rawToPost qualityWitnessRaw).num_comments ∧
    0 < selftextLen (rawToPost qualityWitnessRaw).selftext :=
  run_items_pass_quality_filter witnessCf emptySvc witnessTrace 0
    (by intro kv hkv; exact absurd hkv (List.not_mem_nil kv))
    (rawToPost qualityWitnessRaw) (by decide)

/-! ## Deduplicator: collectAllData (dataCollectorService.js lines 42-61)

The dedupe step is Array.from(new Map(allData.map(post =>
[post.id, post])).values()). A JS Map built from an entry list sets the
entries left to right: a repeated key keeps its original position but
takes the later value; values() returns the values in key insertion
order. -/

/-- The left-to-right entry insertion behind the Map constructor. -/
def buildMapFrom (m : List (String × Post)) : List Post → List (String × Post)
  | [] => m
  | p :: rest => buildMapFrom (mapSet m p.id p) rest

/-- Model of Array.from(new Map(allData.map(post =>
[post.id, post])).values()). -/
def dedupeById (posts : List Post) : List Post :=
  (buildMapFrom [] posts).map Prod.snd

/-- Model of groupBySubreddit (lines 53-61): count posts per subreddit,
keys in first-appearance order. -/
def groupBySubreddit (posts : List Post) : List (String × Nat) :=
  posts.foldl
    (fun acc p =>
      match lookupKV acc p.subreddit with
      | some n => mapSet acc p.subreddit (n + 1)
      | none => mapSet acc p.subreddit 1) []

/-- The collection result literal of lines 46-50, applied to the
accumulated posts of a run. -/
structure CollectionResult where
  total_posts : Nat
  posts_by_subreddit : List (String × Nat)
  data : List Post
deriving DecidableEq, Repr

def collectResult (allData : List Post) : CollectionResult :=
  { total_posts := (dedupeById allData).length
    posts_by_subreddit := groupBySubreddit (dedupeById allData)
    data := dedupeById allData }

/-- First-seen order of a list of ids: keep each id at its first
occurrence, drop the later ones. -/
def dedupFirst : List String → List String
  | [] => []
  | i :: is => i :: dedupFirst (is.filter (fun j => j ≠ i))
termination_by l => l.length
decreasing_by
  simp only [List.length_cons]
  exact Nat.lt_succ_of_le (List.length_filter_le _ is)

/-- The last element of posts carrying a given id, if any. -/
def findLastWithId (posts : List Post) (k : String) : Option Post :=
  posts.reverse.find? (fun p => p.id = k)

/-! ### Lemmas about the Map construction -/

theorem lookupKV_none_iff {α β : Type} [DecidableEq α]
    (m : List (α × β)) (k : α) :
    lookupKV m k = none ↔ k ∉ m.map Prod.fst := by
  induction m with
  | nil => simp [lookupKV]
  | cons kv rest ih =>
    obtain ⟨k1, v1⟩ := kv
    by_cases h1 : k1 = k
    · subst h1
      simp [lookupKV]
    · simp only [lookupKV, h1, if_false, List.map_cons, List.mem_cons, ih]
      constructor
      · intro h hmem
        rcases hmem with h2 | h2
        · exact h1 h2.symm
        · exact h h2
      · intro h h2
        exact h (Or.inr h2)

theorem keys_mapSet {α β : Type} [DecidableEq α]
    (m : List (α × β)) (k : α) (v : β) :
    (mapSet m k v).map Prod.fst =
      if k ∈ m.map Prod.fst then m.map Prod.fst
      else m.map Prod.fst ++ [k] := by
  induction m with
  | nil => simp [mapSet]
  | cons kv rest ih =>
    obtain ⟨k1, v1⟩ := kv
    by_cases h1 : k1 = k
    · subst h1
      simp [mapSet]
    · simp only [mapSet, h1, if_false, List.map_cons]
      rw [ih]
      by_cases h2 : k ∈ rest.map Prod.fst
      · have hmem : k ∈ k1 :: rest.map Prod.fst := List.mem_cons_of_mem _ h2
        rw [if_pos h2, if_pos hmem]
      · have hnmem : k ∉ k1 :: rest.map Prod.fst := by
          intro hc
          rcases List.mem_cons.mp hc with hc1 | hc2
          · exact h1 hc1.symm
          · exact h2 hc2
        rw [if_neg h2, if_neg hnmem]
        rfl

theorem nodup_keys_mapSet {α β : Type} [DecidableEq α]
    (m : List (α × β)) (k : α) (v : β)
    (h : (m.map Prod.fst).Nodup) :
    ((mapSet m k v).map Prod.fst).Nodup := by
  rw [keys_mapSet]
  by_cases h2 : k ∈ m.map Prod.fst
  · rw [if_pos h2]
    exact h
  · rw [if_neg h2]
    rw [List.nodup_append]
    refine ⟨h, List.nodup_singleton k, ?_⟩
    intro a ha hb
    simp only [List.mem_singleton] at hb
    subst hb
    exact h2 ha

theorem buildMapFrom_id_inv (posts : List Post) :
    ∀ m, (∀ kv ∈ m, (kv : String × Post).2.id = kv.1) →
    ∀ kv ∈ buildMapFrom m posts, (kv : String × Post).2.id = kv.1 := by
  induction posts with
  | nil => intro m hm kv hkv; exact hm kv hkv
  | cons p rest ih =>
    intro m hm kv hkv
    refine ih (mapSet m p.id p) ?_ kv hkv
    intro kv2 hkv2
    rcases mem_mapSet _ _ _ _ hkv2 with h | h
    · rw [h]
    · exact hm kv2 h

theorem buildMapFrom_nodup_keys (posts : List Post) :
    ∀ m, ((m.map Prod.fst).Nodup : Prop) →
    ((buildMapFrom m posts).map Prod.fst).Nodup := by
  induction posts with
  | nil => intro m h; exact h
  | cons p rest ih =>
    intro m h
    exact ih _ (nodup_keys_mapSet m p.id p h)

theorem buildMapFrom_lookup (posts : List Post) :
    ∀ (m : List (String × Post)) (k : String),
    lookupKV (buildMapFrom m posts) k =
      match findLastWithId posts k with
      | some p => some p
      | none => lookupKV m k := by
  induction posts with
  | nil => intro m k; rfl
  | cons p rest ih =>
    intro m k
    simp only [buildMapFrom]
    rw [ih]
    unfold findLastWithId
    simp only [List.reverse_cons]
    rw [List.find?_append]
    cases hfind : List.find? (fun q => q.id = k) rest.reverse with
    | some q => simp [findLastWithId, hfind]
    | none =>
      simp only [findLastWithId, hfind, Option.none_orElse]
      rw [lookupKV_mapSet]
      by_cases hk : p.id = k
      · simp [List.find?, hk]
      · simp [List.find?, hk]

theorem lookup_of_mem_nodup {α β : Type} [DecidableEq α]
    (m : List (α × β)) (kv : α × β)
    (hmem : kv ∈ m) (hnd : (m.map Prod.fst).Nodup) :
    lookupKV m kv.1 = some kv.2 := by
  induction m with
  | nil => simp at hmem
  | cons kv1 rest ih =>
    obtain ⟨k1, v1⟩ := kv1
    simp only [List.map_cons, List.nodup_cons] at hnd
    rcases List.mem_cons.mp hmem with h | h
    · subst h
      simp [lookupKV]
    · have h1 : kv.1 ∈ rest.map Prod.fst := List.mem_map_of_mem _ h
      have hne : ¬ (k1 = kv.1) := fun hc => hnd.1 (hc ▸ h1)
      simp only [lookupKV, hne, if_false]
      exact ih h hnd.2

theorem buildMapFrom_keys (posts : List Post) :
    ∀ m : List (String × Post),
    (buildMapFrom m posts).map Prod.fst =
      m.map Prod.fst ++
        dedupFirst ((posts.map Post.id).filter
          (fun i => decide (i ∉ m.map Prod.fst))) := by
  induction posts with
  | nil => intro m; simp [buildMapFrom, dedupFirst]
  | cons p rest ih =>
    intro m
    simp only [buildMapFrom, List.map_cons, List.filter_cons]
    rw [ih]
    by_cases h2 : p.id ∈ m.map Prod.fst
    · have hk : (mapSet m p.id p).map Prod.fst = m.map Prod.fst := by
        rw [keys_mapSet, if_pos h2]
      have hcneg : ¬ (decide (p.id ∉ m.map Prod.fst) = true) := by
        simp [h2]
      rw [if_neg hcneg]
      simp only [hk]
    · have hk : (mapSet m p.id p).map Prod.fst =
          m.map Prod.fst ++ [p.id] := by
        rw [keys_mapSet, if_neg h2]
      have hc : decide (p.id ∉ m.map Prod.fst) = true := by
        simp [h2]
      rw [if_pos hc]
      simp only [hk]
      have hpred : ∀ i : String,
          (decide (i ∉ m.map Prod.fst ++ [p.id])) =
            ((decide (¬ i = p.id)) && (decide (i ∉ m.map Prod.fst))) := by
        intro i
        by_cases ha : i ∈ m.map Prod.fst <;> by_cases hb : i = p.id <;>
          simp [ha, hb, List.mem_append]
      conv_rhs => rw [dedupFirst]
      rw [List.append_assoc]
      simp only [List.singleton_append]
      congr 2
      · congr 1
        rw [List.filter_filter]
        exact List.filter_congr (fun a _ => hpred a)

theorem dedupeById_ids (posts : List Post) :
    (dedupeById posts).map Post.id =
      (buildMapFrom [] posts).map Prod.fst := by
  unfold dedupeById
  rw [List.map_map]
  apply List.map_congr_left
  intro kv hkv
  exact buildMapFrom_id_inv posts []
    (by intro kv2 hkv2; simp at hkv2) kv hkv

/-- C2 counterexample: two posts with the same id and different
content; the dedupe keeps the later value in the earlier position, so
the retained item is the second occurrence, not the first. -/
def dupFirstPost : Post :=
  { id := "a", title := "first", selftext := some "b", url := "u",
    author := "au", score := 1, created_utc := 0, num_comments := 0,
    subreddit := "s", top_comments := [] }

def dupSecondPost : Post := { dupFirstPost with title := "second" }

/-- C2 counterexample theorem: dedupe of the two-element duplicate list
retains exactly the second occurrence, which differs from the first, so
it is false that the first occurrence wins; the surrounding
CollectionResult carries the same retained item. -/
theorem dedupe_first_wins_cex :
    dedupeById [dupFirstPost, dupSecondPost] = [dupSecondPost] ∧
    dupSecondPost ≠ dupFirstPost ∧
    (collectResult [dupFirstPost, dupSecondPost]).data = [dupSecondPost] := by
  decide

/-- C2 amended: dedupe merges by id so that no two result items share
an id, and the result order follows first-seen order of the ids; when
duplicates occur the retained item is the last occurrence of that id
(a JS Map overwrites the value of an existing key in place), not the
first. -/
theorem dedupe_unique_first_seen_last_wins (posts : List Post) :
    ((dedupeById posts).map Post.id).Nodup ∧
    (dedupeById posts).map Post.id = dedupFirst (posts.map Post.id) ∧
    ∀ q ∈ dedupeById posts, findLastWithId posts q.id = some q := by
  have hids := dedupeById_ids posts
  have hnd : ((buildMapFrom [] posts).map Prod.fst).Nodup :=
    buildMapFrom_nodup_keys posts [] (by simp)
  refine ⟨?_, ?_, ?_⟩
  · rw [hids]; exact hnd
  · rw [hids, buildMapFrom_keys posts []]
    simp
  · intro q hq
    obtain ⟨kv, hkv, hkvq⟩ := List.mem_map.mp hq
    subst hkvq
    have hid : kv.2.id = kv.1 :=
      buildMapFrom_id_inv posts []
        (by intro kv2 hkv2; simp at hkv2) kv hkv
    have hlook : lookupKV (buildMapFrom [] posts) kv.1 = some kv.2 :=
      lookup_of_mem_nodup _ kv hkv hnd
    rw [buildMapFrom_lookup posts [] kv.1] at hlook
    rw [hid]
    cases hfind : findLastWithId posts kv.1 with
    | none =>
      rw [hfind] at hlook
      simp [lookupKV] at hlook
    | some pp =>
      rw [hfind] at hlook
      simp only [Option.some.injEq] at hlook
      rw [hlook]

/-- C2 witness: the amended statement applied at the concrete duplicate
list: unique ids, first-seen order, and the retained item is the last
occurrence of its id. -/
theorem dedupe_unique_first_seen_last_wins_witness :
    ((dedupeById [dupFirstPost, dupSecondPost]).map Post.id).Nodup ∧
    (dedupeById [dupFirstPost, dupSecondPost]).map Post.id =
      dedupFirst ([dupFirstPost, dupSecondPost].map Post.id) ∧
    findLastWithId [dupFirstPost, dupSecondPost] dupSecondPost.id =
      some dupSecondPost := by
  have h := dedupe_unique_first_seen_last_wins [dupFirstPost, dupSecondPost]
  exact ⟨h.1, h.2.1, h.2.2 dupSecondPost (by decide)⟩
